import Mathlib

/-! Shallow embedding of the execution-trace extraction pipeline implemented by
the function execute_test in src/app_modified.py: the Gherkin scenario
splitter, the per-action element resolver, the element-index to XPath map, the
free-text extraction pass over extracted content, and the session-level
execution record builder. -/

/-- The single-quote character, written by code point to keep literals plain. -/
def quoteChar : Char := Char.ofNat 39

/-- Literal prefix of the pattern used on interacted-element descriptions. -/
def xpathPhrase : List Char := "xpath=".toList ++ [quoteChar]

/-- Leftmost-match extraction for the regular expression with literal prefix
xpathPhrase, one or more non-quote characters, and a closing quote; returns the
captured group. Mirrors re.search on the description string. -/
def extractXpath : List Char → Option (List Char)
  | [] => none
  | c :: cs =>
    if xpathPhrase.isPrefixOf (c :: cs) then
      let rest := (c :: cs).drop xpathPhrase.length
      let v := rest.takeWhile (fun ch => ch != quoteChar)
      if v ≠ [] ∧ v.length < rest.length then some v else extractXpath cs
    else extractXpath cs

/-- Literal phrase searched for in extracted-content items. -/
def contentPhrase : List Char := "The xpath of the element is ".toList

/-- Leftmost-match extraction for the content pattern: the phrase followed by a
greedy dot-plus group, which captures up to the end of the line. -/
def extractContentXpath : List Char → Option (List Char)
  | [] => none
  | c :: cs =>
    if contentPhrase.isPrefixOf (c :: cs) then
      let v := ((c :: cs).drop contentPhrase.length).takeWhile (fun ch => ch != '\n')
      if v ≠ [] then some v else extractContentXpath cs
    else extractContentXpath cs

/-- Literal phrase of the element-index pattern in extracted-content items. -/
def elementPhrase : List Char := "element ".toList

/-- Digit run to a natural number, as int() does on the captured digits. -/
def digitsToNat (ds : List Char) : Nat :=
  ds.foldl (fun n c => 10 * n + (c.toNat - 48)) 0

/-- Leftmost-match extraction for the element-index pattern: the phrase
followed by one or more digits, captured greedily. -/
def extractElementIndex : List Char → Option Nat
  | [] => none
  | c :: cs =>
    if elementPhrase.isPrefixOf (c :: cs) then
      let ds := ((c :: cs).drop elementPhrase.length).takeWhile Char.isDigit
      if ds ≠ [] then some (digitsToNat ds) else extractElementIndex cs
    else extractElementIndex cs

/-- Keys of element_xpath_map: the element index value; none models a missing
index value retrieved with dict.get. -/
abbrev EKey := Option Int

/-- element_xpath_map, viewed as a lookup function from keys to XPath values. -/
abbrev XPathMap := EKey → Option String

/-- The empty map the run starts from. -/
def emptyMap : XPathMap := fun _ => none

/-- Dictionary assignment: bind key k to value v, keeping other keys. -/
def mapSet (m : XPathMap) (k : EKey) (v : String) : XPathMap :=
  fun k2 => if k2 = k then some v else m k2

/-- One raw action entry of history.model_actions(). A field is some when the
corresponding dictionary key is present. For the three interaction keys the
inner option is the optional index parameter of the action. For the discovery
key the payload is the value of the index parameter fetched with dict.get.
interacted_element is some exactly when the key is present and truthy, holding
the str() rendering of the value. -/
structure ActionData where
  get_xpath_of_element : Option EKey
  input_text : Option (Option Int)
  click_element : Option (Option Int)
  perform_element_action : Option (Option Int)
  interacted_element : Option String
deriving DecidableEq

/-- The element_details dictionary of one action record: an optional index
entry (whose value may itself be the missing marker) and an optional xpath. -/
structure ElementDetails where
  index : Option EKey
  xpath : Option String
deriving DecidableEq

/-- One entry of the detailed action list built per raw action. -/
structure ActionRecord where
  name : String
  index : Nat
  element_details : ElementDetails
deriving DecidableEq

/-- One extracted-content item: either a string or some non-string value. -/
inductive Content where
  | str (s : String) : Content
  | other (tag : Nat) : Content
deriving DecidableEq

/-- The final result of one agent run: a bare string, a status/details pair,
or some other structured value. -/
inductive ResultVal where
  | str (s : String) : ResultVal
  | dict (status details : String) : ResultVal
  | other (tag : Nat) : ResultVal
deriving DecidableEq

/-- Whether the result value is a bare string. -/
def ResultVal.isStr : ResultVal → Bool
  | .str _ => true
  | _ => false

/-- Normalization of a bare string result into a status/details pair;
non-string results pass through unchanged. -/
def normalizeResult : ResultVal → ResultVal
  | .str s => .dict s "Execution completed"
  | r => r

/-- The history object one agent run returns. -/
structure History where
  final_result : ResultVal
  model_actions : List ActionData
  action_names : List String
  urls : List String
  extracted_content : List Content
  errors : List String
deriving DecidableEq

/-- Processing of one interaction key of the current action entry: when the key
is present and carries an index parameter, record the index, look the index up
in the map, and then try the interacted-element extraction, which on success
overwrites both the map entry and the attached xpath. -/
def stepKey (ie : Option String) (acc : XPathMap × ElementDetails)
    (v : Option (Option Int)) : XPathMap × ElementDetails :=
  match v with
  | some (some i) =>
    let d1 : ElementDetails := { index := some (some i), xpath := acc.2.xpath }
    let d2 : ElementDetails :=
      match acc.1 (some i) with
      | some xp => { d1 with xpath := some xp }
      | none => d1
    match ie with
    | some info =>
      match extractXpath info.toList with
      | some xp =>
        (mapSet acc.1 (some i) (String.mk xp), { d2 with xpath := some (String.mk xp) })
      | none => (acc.1, d2)
    | none => (acc.1, d2)
  | _ => acc

/-- Processing of one raw action entry at position i of its scenario: builds
the action record and updates the map, following the classification into
discovery actions, interaction actions, and other actions. -/
def processAction (names : List String) (m : XPathMap) (i : Nat)
    (a : ActionData) : XPathMap × ActionRecord :=
  let name := names.getD i "Unknown Action"
  match a.get_xpath_of_element with
  | some eidx =>
    let d0 : ElementDetails := { index := some eidx, xpath := none }
    match a.interacted_element with
    | some info =>
      match extractXpath info.toList with
      | some xp =>
        (mapSet m eidx (String.mk xp),
         { name := name, index := i,
           element_details := { d0 with xpath := some (String.mk xp) } })
      | none => (m, { name := name, index := i, element_details := d0 })
    | none => (m, { name := name, index := i, element_details := d0 })
  | none =>
    if a.input_text.isSome || a.click_element.isSome || a.perform_element_action.isSome then
      let r := [a.input_text, a.click_element, a.perform_element_action].foldl
        (stepKey a.interacted_element) (m, { index := none, xpath := none })
      (r.1, { name := name, index := i, element_details := r.2 })
    else
      (m, { name := name, index := i,
            element_details := { index := none, xpath := none } })

/-- Processing of a list of raw action entries, numbering them from i0. -/
def processActionsFrom (names : List String) (i0 : Nat) (m : XPathMap) :
    List ActionData → XPathMap × List ActionRecord
  | [] => (m, [])
  | a :: rest =>
    let p := processAction names m i0 a
    let q := processActionsFrom names (i0 + 1) p.1 rest
    (q.1, p.2 :: q.2)

/-- Processing of one scenario's raw action entries, numbered from zero as the
enumerate call does. -/
def processActions (names : List String) (m : XPathMap)
    (actions : List ActionData) : XPathMap × List ActionRecord :=
  processActionsFrom names 0 m actions

/-- Processing of one extracted-content item: when it is a string and both the
xpath phrase and the element-index phrase match, write the captured value under
the captured index. -/
def contentStep (m : XPathMap) (c : Content) : XPathMap :=
  match c with
  | .str s =>
    match extractContentXpath s.toList with
    | some xp =>
      match extractElementIndex s.toList with
      | some n => mapSet m (some (Int.ofNat n)) (String.mk xp)
      | none => m
    | none => m
  | .other _ => m

/-- Processing of the extracted-content list of one scenario. -/
def processContent (m : XPathMap) (cs : List Content) : XPathMap :=
  cs.foldl contentStep m

/-- Mutable state accumulated across scenarios of one run. -/
structure RunState where
  all_results : List ResultVal
  all_actions : List ActionRecord
  all_extracted_content : List Content
  element_xpath_map : XPathMap

/-- The run state before the first scenario. -/
def initialRunState : RunState :=
  { all_results := [], all_actions := [], all_extracted_content := [],
    element_xpath_map := emptyMap }

/-- Processing of one scenario's history: normalize and append the result,
process the raw actions into records, append the extracted content, and run
the free-text extraction pass over it. -/
def processScenario (st : RunState) (h : History) : RunState :=
  let result := normalizeResult h.final_result
  let p := processActions h.action_names st.element_xpath_map h.model_actions
  let m2 := processContent p.1 h.extracted_content
  { all_results := st.all_results ++ [result],
    all_actions := st.all_actions ++ p.2,
    all_extracted_content := st.all_extracted_content ++ h.extracted_content,
    element_xpath_map := m2 }

/-- The run state after processing a list of scenario histories in order. -/
def runState (hs : List History) : RunState :=
  hs.foldl processScenario initialRunState

/-- The execution record stored in session state after a successful run. -/
structure ExecutionRecord where
  urls : List String
  action_names : List String
  detailed_actions : List ActionRecord
  element_xpaths : XPathMap
  extracted_content : List Content
  errors : List String
  model_actions : List ActionData
  execution_date : String

/-- Assembly of the stored record: accumulated detailed actions, map, and
extracted content, but urls, action names, errors, and model actions read from
the history variable, which after the loop is the last scenario's history. -/
def buildExecutionRecord (st : RunState) (lastH : History)
    (execDate : Option String) : ExecutionRecord :=
  { urls := lastH.urls,
    action_names := lastH.action_names,
    detailed_actions := st.all_actions,
    element_xpaths := st.element_xpath_map,
    extracted_content := st.all_extracted_content,
    errors := lastH.errors,
    model_actions := lastH.model_actions,
    execution_date := execDate.getD "Unknown" }

/-- The scenario loop over agent-run outcomes: each outcome is either a history
or a raised exception. An exception aborts the loop; after a complete loop the
last history must exist for the record assembly to succeed (with no scenarios,
the history variable is unbound and the assembly itself raises). -/
def runOutcomes : RunState → Option History → List (Except Nat History) →
    Option (RunState × History)
  | st, last, [] =>
    match last with
    | some h => some (st, h)
    | none => none
  | _, _, Except.error _ :: _ => none
  | st, _, Except.ok h :: rest => runOutcomes (processScenario st h) (some h) rest

/-- The whole execute_test call as a function of the previously stored session
history, the optional execution date, and the per-scenario outcomes: it returns
the session history after the call. Any exception is caught at top level,
leaving the prior stored history in place. -/
def executeTest (prior : Option ExecutionRecord) (execDate : Option String)
    (outcomes : List (Except Nat History)) : Option ExecutionRecord :=
  match runOutcomes initialRunState none outcomes with
  | some p => some (buildExecutionRecord p.1 p.2 execDate)
  | none => prior

/-- Splitting of a text into lines, as str.split on the newline separator. -/
def splitLines : List Char → List (List Char)
  | [] => [[]]
  | c :: cs =>
    if c = '\n' then [] :: splitLines cs
    else
      match splitLines cs with
      | l :: ls => (c :: l) :: ls
      | [] => [[c]]

/-- Joining of accumulated lines with newlines, as str.join. -/
def joinLines (ls : List (List Char)) : List Char :=
  List.intercalate ['\n'] ls

/-- Test applied to each line: the stripped line starts with the scenario
keyword. Leading-whitespace removal suffices, since the keyword contains no
whitespace. -/
def scenarioLine (line : List Char) : Bool :=
  "Scenario:".toList.isPrefixOf (line.dropWhile Char.isWhitespace)

/-- One step of the scenario-splitting loop: a scenario line flushes any
accumulated block and starts a new one; other lines extend the current block
when one exists and are dropped otherwise. -/
def splitStep (acc : List (List Char) × List (List Char)) (line : List Char) :
    List (List Char) × List (List Char) :=
  if scenarioLine line then
    (if acc.2.isEmpty then acc.1 else acc.1 ++ [joinLines acc.2], [line])
  else if acc.2.isEmpty then acc
  else (acc.1, acc.2 ++ [line])

/-- The scenario splitter over character lists: loop over the lines and flush
the trailing block. -/
def splitScenariosL (steps : List Char) : List (List Char) :=
  let fin := (splitLines steps).foldl splitStep ([], [])
  if fin.2.isEmpty then fin.1 else fin.1 ++ [joinLines fin.2]

/-- The scenario splitter over strings. -/
def splitScenarios (steps : String) : List String :=
  (splitScenariosL steps.toList).map String.mk

/-- Writes one interaction key contributes to the map: present key, index
parameter present, and successful interacted-element extraction. -/
def keyWrites (ie : Option String) (v : Option (Option Int)) :
    List (EKey × String) :=
  match v with
  | some (some i) =>
    match ie with
    | some info =>
      match extractXpath info.toList with
      | some xp => [(some i, String.mk xp)]
      | none => []
    | none => []
  | _ => []

/-- The ordered successful map writes one raw action entry performs. -/
def actionWrites (a : ActionData) : List (EKey × String) :=
  match a.get_xpath_of_element with
  | some eidx =>
    match a.interacted_element with
    | some info =>
      match extractXpath info.toList with
      | some xp => [(eidx, String.mk xp)]
      | none => []
    | none => []
  | none =>
    ([a.input_text, a.click_element, a.perform_element_action].map
      (keyWrites a.interacted_element)).flatten

/-- The map writes one extracted-content item performs. -/
def contentWrites (c : Content) : List (EKey × String) :=
  match c with
  | .str s =>
    match extractContentXpath s.toList with
    | some xp =>
      match extractElementIndex s.toList with
      | some n => [(some (Int.ofNat n), String.mk xp)]
      | none => []
    | none => []
  | .other _ => []

/-- The chronological successful map writes of one scenario: all action-channel
writes in stream order, then all free-text writes. -/
def historyWrites (h : History) : List (EKey × String) :=
  (h.model_actions.map actionWrites).flatten ++
    (h.extracted_content.map contentWrites).flatten

/-- The chronological successful map writes of a whole run. -/
def runWrites (hs : List History) : List (EKey × String) :=
  (hs.map historyWrites).flatten

/-- Application of a list of writes to a map, in order. -/
def applyWrites (m : XPathMap) (ws : List (EKey × String)) : XPathMap :=
  ws.foldl (fun acc w => mapSet acc w.1 w.2) m

/-- The value of the chronologically last write to key k in a write list. -/
def lastWrite : List (EKey × String) → EKey → Option String
  | [], _ => none
  | w :: t, k =>
    match lastWrite t k with
    | some v => some v
    | none => if w.1 = k then some w.2 else none

/-- Per-scenario record blocks in order, each computed from the map state left
by the previous scenarios: the concatenation shape of the combined action
list. -/
def scenarioRecordsAcc : XPathMap → List History → List ActionRecord
  | _, [] => []
  | m, h :: rest =>
    let p := processActions h.action_names m h.model_actions
    p.2 ++ scenarioRecordsAcc (processContent p.1 h.extracted_content) rest

/-- Number of interaction keys of an entry that are present and carry an index
parameter. -/
def activeKeyCount (a : ActionData) : Nat :=
  ([a.input_text, a.click_element, a.perform_element_action].countP
    (fun v => (v.bind id).isSome))

/-! Theorems -/

/-- Helper: the splitting loop leaves the empty accumulator unchanged when no
line is a scenario line. -/
theorem splitStep_fold_nil (lines : List (List Char))
    (h : ∀ line ∈ lines, scenarioLine line = false) :
    lines.foldl splitStep ([], []) = ([], []) := by
  induction lines with
  | nil => rfl
  | cons l t ih =>
    have hl : scenarioLine l = false := h l (List.mem_cons_self l t)
    have ht : ∀ line ∈ t, scenarioLine line = false :=
      fun x hx => h x (List.mem_cons_of_mem l hx)
    simp only [List.foldl_cons, splitStep, hl, Bool.false_eq_true, if_false,
      List.isEmpty_nil, if_true]
    exact ih ht

/-- C1 counterexample: on the input hello, which contains no scenario line, the
splitter returns the empty list, not one block equal to the whole input. -/
theorem splitScenarios_no_scenario_cex :
    splitScenarios "hello" = [] ∧ splitScenarios "hello" ≠ ["hello"] := by
  constructor
  · rfl
  · decide

/-- C1 (amended): for every input text containing no line whose stripped text
starts with the scenario keyword, the splitter returns the empty list; the
input is not kept as a single block, because lines before the first scenario
line are discarded. -/
theorem splitScenarios_no_scenario_empty (steps : String)
    (h : ∀ line ∈ splitLines steps.toList, scenarioLine line = false) :
    splitScenarios steps = [] := by
  simp only [splitScenarios, splitScenariosL, splitStep_fold_nil _ h,
    List.isEmpty_nil, if_true, List.map_nil]

/-- C1 witness: a concrete two-line input with no scenario line splits to the
empty list. -/
theorem splitScenarios_no_scenario_empty_witness :
    splitScenarios "hello\nworld" = [] :=
  splitScenarios_no_scenario_empty "hello\nworld" (by decide)

/-- C2 counterexample: on the documented content item the free-text pass binds
index 5 to the whole rest of the line after the phrase, not to the bare
XPath, because the captured group is greedy. -/
theorem content_entry_value_cex :
    contentStep emptyMap
        (Content.str "The xpath of the element is //button[2], found near element 5")
        (some 5) = some "//button[2], found near element 5" ∧
      (some "//button[2], found near element 5" : Option String) ≠
        some "//button[2]" := by
  constructor
  · rfl
  · decide

/-- C2 (amended): on the documented content item the free-text pass adds
exactly the entry binding index 5 to the text after the phrase up to the end of
the line; and for any item where either pattern fails to match, the map is left
unchanged. -/
theorem content_entry_amended :
    (∀ m : XPathMap,
      contentStep m
          (Content.str "The xpath of the element is //button[2], found near element 5") =
        mapSet m (some 5) "//button[2], found near element 5") ∧
    (∀ (m : XPathMap) (s : String),
      extractContentXpath s.toList = none ∨ extractElementIndex s.toList = none →
      contentStep m (Content.str s) = m) := by
  constructor
  · intro m
    rfl
  · intro m s h
    rcases h with h | h
    · have h2 : extractContentXpath s.data = none := h
      simp [contentStep, h2]
    · have h2 : extractElementIndex s.data = none := h
      cases hx : extractContentXpath s.data with
      | none => simp [contentStep, hx]
      | some xp => simp [contentStep, hx, h2]

/-- C2 witness: the amended theorem applied at the empty map and at a concrete
item without the phrases. -/
theorem content_entry_amended_witness :
    contentStep emptyMap
        (Content.str "The xpath of the element is //button[2], found near element 5") =
      mapSet emptyMap (some 5) "//button[2], found near element 5" ∧
    contentStep emptyMap (Content.str "nothing here") = emptyMap :=
  ⟨content_entry_amended.1 emptyMap,
   content_entry_amended.2 emptyMap "nothing here" (Or.inl (by decide))⟩

/-- C7: a bare string result is normalized to the status/details pair with the
fixed details text, and a non-string result passes through unchanged. -/
theorem normalize_result_spec :
    (∀ s : String,
      normalizeResult (ResultVal.str s) = ResultVal.dict s "Execution completed") ∧
    (∀ r : ResultVal, r.isStr = false → normalizeResult r = r) := by
  constructor
  · intro s
    rfl
  · intro r h
    cases r with
    | str s => simp [ResultVal.isStr] at h
    | dict a b => rfl
    | other t => rfl

/-- C7 witness: the documented example and a concrete non-string result. -/
theorem normalize_result_spec_witness :
    normalizeResult (ResultVal.str "Login succeeded") =
      ResultVal.dict "Login succeeded" "Execution completed" ∧
    normalizeResult (ResultVal.other 0) = ResultVal.other 0 :=
  ⟨normalize_result_spec.1 "Login succeeded",
   normalize_result_spec.2 (ResultVal.other 0) rfl⟩

/-- C9: a raw entry with neither the discovery key nor any of the three
interaction keys yields a record carrying only the name and the position, with
empty element details, and leaves the map unchanged. -/
theorem other_action_plain_record (names : List String) (m : XPathMap) (i : Nat)
    (a : ActionData) (h1 : a.get_xpath_of_element = none)
    (h2 : a.input_text = none) (h3 : a.click_element = none)
    (h4 : a.perform_element_action = none) :
    processAction names m i a =
      (m, { name := names.getD i "Unknown Action", index := i,
            element_details := { index := none, xpath := none } }) := by
  simp [processAction, h1, h2, h3, h4]

/-- C9 witness: a concrete entry with no recognized keys. -/
theorem other_action_plain_record_witness :
    processAction ["scroll"] emptyMap 0
        { get_xpath_of_element := none, input_text := none, click_element := none,
          perform_element_action := none, interacted_element := none } =
      (emptyMap, { name := (["scroll"] : List String).getD 0 "Unknown Action",
                   index := 0,
                   element_details := { index := none, xpath := none } }) :=
  other_action_plain_record ["scroll"] emptyMap 0 _ rfl rfl rfl rfl

/-- Helper: every record built by processAction carries the enumeration
position it was built at. -/
theorem processAction_index (names : List String) (m : XPathMap) (i : Nat)
    (a : ActionData) : (processAction names m i a).2.index = i := by
  rcases a with ⟨g, it, ce, pe, ie⟩
  cases g with
  | some eidx =>
    cases ie with
    | some info => cases hx : extractXpath info.data <;> simp [processAction, hx]
    | none => simp [processAction]
  | none =>
    by_cases h : (it.isSome || ce.isSome || pe.isSome) = true <;>
      simp [processAction, h]

/-- Helper: records of a block processed from position i0 carry indices
i0 + k. -/
theorem processActionsFrom_index (names : List String) :
    ∀ (actions : List ActionData) (i0 : Nat) (m : XPathMap) (k : Nat)
      (hk : k < (processActionsFrom names i0 m actions).2.length),
      ((processActionsFrom names i0 m actions).2.get ⟨k, hk⟩).index = i0 + k := by
  intro actions
  induction actions with
  | nil =>
    intro i0 m k hk
    simp [processActionsFrom] at hk
  | cons a rest ih =>
    intro i0 m k hk
    cases k with
    | zero =>
      simpa [processActionsFrom] using processAction_index names m i0 a
    | succ k2 =>
      have hk2 : k2 <
          (processActionsFrom names (i0 + 1) (processAction names m i0 a).1 rest).2.length := by
        have := hk
        simp only [processActionsFrom, List.length_cons] at this
        omega
      have hrec := ih (i0 + 1) (processAction names m i0 a).1 k2 hk2
      simp only [processActionsFrom, List.get_cons_succ]
      rw [hrec]
      omega

/-- A raw entry with none of the recognized keys. -/
def trivialAction : ActionData :=
  { get_xpath_of_element := none, input_text := none, click_element := none,
    perform_element_action := none, interacted_element := none }

/-- A one-action history used to exhibit per-scenario index numbering. -/
def historyC3 : History :=
  { final_result := ResultVal.str "ok", model_actions := [trivialAction],
    action_names := ["act"], urls := [], extracted_content := [], errors := [] }

/-- C3 counterexample: in a two-scenario run with one action each, the record
at position 1 of the combined action list carries index 0, not its combined
position 1: the enumeration restarts at zero for each scenario. -/
theorem action_index_restarts_cex :
    (runState [historyC3, historyC3]).all_actions.map ActionRecord.index = [0, 0] ∧
    ([0, 0] : List Nat) ≠ [0, 1] := by
  constructor
  · rfl
  · decide

/-- C3 (amended): within one scenario block, the k-th record built from the
block carries index k: the index is the zero-based position inside the record's
own scenario, not in the flat combined stream. -/
theorem action_index_per_scenario (names : List String) (m : XPathMap)
    (actions : List ActionData) (k : Nat)
    (hk : k < (processActions names m actions).2.length) :
    ((processActions names m actions).2.get ⟨k, hk⟩).index = k := by
  simpa [processActions] using processActionsFrom_index names actions 0 m k hk

/-- C3 witness: the second record of a two-action scenario carries index 1. -/
theorem action_index_per_scenario_witness :
    ((processActions ["act"] emptyMap [trivialAction, trivialAction]).2.get
        ⟨1, by decide⟩).index = 1 :=
  action_index_per_scenario ["act"] emptyMap [trivialAction, trivialAction] 1 (by decide)

/-- Helper: the scenario loop yields nothing when some outcome is a raised
exception. -/
theorem runOutcomes_error :
    ∀ (outcomes : List (Except Nat History)) (st : RunState)
      (last : Option History) (e : Nat), Except.error e ∈ outcomes →
      runOutcomes st last outcomes = none := by
  intro outcomes
  induction outcomes with
  | nil =>
    intro st last e he
    cases he
  | cons o rest ih =>
    intro st last e he
    cases o with
    | error e2 => rfl
    | ok h =>
      rcases List.mem_cons.mp he with h1 | h2
      · simp at h1
      · exact ih _ _ e h2

/-- C6: if any scenario's agent run raises, no execution record is stored: the
session-held history keeps exactly its prior value, with no partial record from
the already completed scenarios. -/
theorem no_record_on_failure (prior : Option ExecutionRecord)
    (execDate : Option String) (outcomes : List (Except Nat History)) (e : Nat)
    (he : Except.error e ∈ outcomes) :
    executeTest prior execDate outcomes = prior := by
  simp [executeTest, runOutcomes_error outcomes initialRunState none e he]

/-- A history value used to build concrete records in witnesses. -/
def dummyHistory : History :=
  { final_result := ResultVal.other 0, model_actions := [], action_names := [],
    urls := [], extracted_content := [], errors := [] }

/-- C6 witness: a run whose second scenario raises leaves the previously stored
record in place. -/
theorem no_record_on_failure_witness :
    executeTest (some (buildExecutionRecord initialRunState dummyHistory none))
        none [Except.ok dummyHistory, Except.error 7] =
      some (buildExecutionRecord initialRunState dummyHistory none) :=
  no_record_on_failure _ none [Except.ok dummyHistory, Except.error 7] 7
    (List.mem_cons_of_mem _ (List.mem_cons_self _ _))

/-- Helper: with only successful outcomes and at least one scenario, the loop
returns the folded state together with the last history. -/
theorem runOutcomes_ok :
    ∀ (hs : List History) (st : RunState) (last : Option History) (hne : hs ≠ []),
      runOutcomes st last (hs.map Except.ok) =
        some (hs.foldl processScenario st, hs.getLast hne) := by
  intro hs
  induction hs with
  | nil =>
    intro st last hne
    cases hne rfl
  | cons h t ih =>
    intro st last hne
    cases t with
    | nil => simp [runOutcomes, List.getLast]
    | cons h2 t2 =>
      have e1 : runOutcomes st last ((h :: h2 :: t2).map Except.ok) =
          runOutcomes (processScenario st h) (some h) ((h2 :: t2).map Except.ok) := rfl
      rw [e1, ih (processScenario st h) (some h) (List.cons_ne_nil h2 t2)]
      simp [List.getLast_cons]

/-- Helper: the combined action list accumulates per-scenario record blocks in
order, each computed from the incoming map state. -/
theorem foldl_all_actions :
    ∀ (hs : List History) (st : RunState),
      (hs.foldl processScenario st).all_actions =
        st.all_actions ++ scenarioRecordsAcc st.element_xpath_map hs := by
  intro hs
  induction hs with
  | nil =>
    intro st
    simp [scenarioRecordsAcc]
  | cons h t ih =>
    intro st
    rw [List.foldl_cons, ih]
    simp [processScenario, scenarioRecordsAcc, List.append_assoc]

/-- Helper: the extracted-content list accumulates every scenario's items in
order. -/
theorem foldl_extracted :
    ∀ (hs : List History) (st : RunState),
      (hs.foldl processScenario st).all_extracted_content =
        st.all_extracted_content ++ (hs.map History.extracted_content).flatten := by
  intro hs
  induction hs with
  | nil =>
    intro st
    simp
  | cons h t ih =>
    intro st
    rw [List.foldl_cons, ih]
    simp [processScenario, List.append_assoc]

/-- C10: in an all-successful multi-scenario run the stored record takes urls,
action names, errors, and model actions from the last scenario's history only,
while detailed actions and extracted content accumulate across all
scenarios. -/
theorem record_fields_last_history (prior : Option ExecutionRecord)
    (execDate : Option String) (hs : List History) (hne : hs ≠ [])
    (_hlen : 2 ≤ hs.length) :
    executeTest prior execDate (hs.map Except.ok) =
      some (buildExecutionRecord (runState hs) (hs.getLast hne) execDate) ∧
    (buildExecutionRecord (runState hs) (hs.getLast hne) execDate).urls =
      (hs.getLast hne).urls ∧
    (buildExecutionRecord (runState hs) (hs.getLast hne) execDate).action_names =
      (hs.getLast hne).action_names ∧
    (buildExecutionRecord (runState hs) (hs.getLast hne) execDate).errors =
      (hs.getLast hne).errors ∧
    (buildExecutionRecord (runState hs) (hs.getLast hne) execDate).model_actions =
      (hs.getLast hne).model_actions ∧
    (buildExecutionRecord (runState hs) (hs.getLast hne) execDate).detailed_actions =
      scenarioRecordsAcc emptyMap hs ∧
    (buildExecutionRecord (runState hs) (hs.getLast hne) execDate).extracted_content =
      (hs.map History.extracted_content).flatten := by
  refine ⟨?_, rfl, rfl, rfl, rfl, ?_, ?_⟩
  · simp [executeTest, runState, runOutcomes_ok hs initialRunState none hne]
  · show (runState hs).all_actions = scenarioRecordsAcc emptyMap hs
    rw [runState, foldl_all_actions]
    rfl
  · show (runState hs).all_extracted_content = (hs.map History.extracted_content).flatten
    rw [runState, foldl_extracted]
    rfl

/-- A first-scenario history for the record-assembly witness. -/
def historyA : History :=
  { final_result := ResultVal.str "ra", model_actions := [],
    action_names := ["na"], urls := ["u1"],
    extracted_content := [Content.str "ca"], errors := ["e1"] }

/-- A second-scenario history for the record-assembly witness. -/
def historyB : History :=
  { final_result := ResultVal.str "rb", model_actions := [],
    action_names := ["nb"], urls := ["u2"],
    extracted_content := [Content.str "cb"], errors := ["e2"] }

/-- C10 witness: in a concrete two-scenario run, the stored urls come from the
second scenario only while the extracted content lists both scenarios'
items. -/
theorem record_fields_last_history_witness :
    (executeTest none none ([historyA, historyB].map Except.ok)).map
        ExecutionRecord.urls = some ["u2"] ∧
    (executeTest none none ([historyA, historyB].map Except.ok)).map
        ExecutionRecord.extracted_content =
      some [Content.str "ca", Content.str "cb"] := by
  have h := record_fields_last_history none none [historyA, historyB]
    (by decide) (by decide)
  constructor
  · rw [h.1]
    rfl
  · rw [h.1]
    rfl

/-- Helper: applying writes distributes over list concatenation. -/
theorem applyWrites_append (m : XPathMap) (w1 w2 : List (EKey × String)) :
    applyWrites m (w1 ++ w2) = applyWrites (applyWrites m w1) w2 := by
  simp [applyWrites, List.foldl_append]

/-- Helper: one interaction-key step changes the map exactly by the key's
write list. -/
theorem stepKey_map_eq (ie : Option String) (acc : XPathMap × ElementDetails)
    (v : Option (Option Int)) :
    (stepKey ie acc v).1 = applyWrites acc.1 (keyWrites ie v) := by
  rcases v with _ | (_ | i)
  · rfl
  · rfl
  · cases ie with
    | none => rfl
    | some info =>
      cases hx : extractXpath info.toList with
      | none =>
        simp only [stepKey, keyWrites, hx]
        rfl
      | some xp =>
        simp only [stepKey, keyWrites, hx]
        rfl

/-- Helper: the fold over the three interaction keys changes the map exactly by
the concatenation of the per-key write lists. -/
theorem foldl_stepKey_map (ie : Option String) :
    ∀ (ks : List (Option (Option Int))) (acc : XPathMap × ElementDetails),
      (ks.foldl (stepKey ie) acc).1 =
        applyWrites acc.1 (ks.map (keyWrites ie)).flatten := by
  intro ks
  induction ks with
  | nil =>
    intro acc
    rfl
  | cons k t ih =>
    intro acc
    rw [List.foldl_cons, ih, List.map_cons, List.flatten_cons, applyWrites_append,
      stepKey_map_eq]

/-- Helper: processing one action changes the map exactly by the action's
write list. -/
theorem processAction_map (names : List String) (m : XPathMap) (i : Nat)
    (a : ActionData) :
    (processAction names m i a).1 = applyWrites m (actionWrites a) := by
  rcases a with ⟨g, it, ce, pe, ie⟩
  cases g with
  | some eidx =>
    cases ie with
    | none => rfl
    | some info =>
      cases hx : extractXpath info.toList with
      | none =>
        simp only [processAction, actionWrites, hx]
        rfl
      | some xp =>
        simp only [processAction, actionWrites, hx]
        rfl
  | none =>
    by_cases h : (it.isSome || ce.isSome || pe.isSome) = true
    · simp only [processAction, actionWrites, h, if_true]
      exact foldl_stepKey_map ie [it, ce, pe] (m, { index := none, xpath := none })
    · have hit : it = none := by
        cases it
        · rfl
        · simp at h
      have hce : ce = none := by
        cases ce
        · rfl
        · simp at h
      have hpe : pe = none := by
        cases pe
        · rfl
        · simp at h
      subst hit
      subst hce
      subst hpe
      simp [processAction, actionWrites, keyWrites, applyWrites]

/-- Helper: the action block changes the map by the concatenated action
writes, in stream order. -/
theorem processActionsFrom_map (names : List String) :
    ∀ (actions : List ActionData) (i0 : Nat) (m : XPathMap),
      (processActionsFrom names i0 m actions).1 =
        applyWrites m (actions.map actionWrites).flatten := by
  intro actions
  induction actions with
  | nil =>
    intro i0 m
    rfl
  | cons a rest ih =>
    intro i0 m
    simp only [processActionsFrom, List.map_cons, List.flatten_cons,
      applyWrites_append]
    rw [ih, processAction_map]

/-- Helper: one content item changes the map exactly by its write list. -/
theorem contentStep_map (m : XPathMap) (c : Content) :
    contentStep m c = applyWrites m (contentWrites c) := by
  cases c with
  | other t => rfl
  | str s =>
    cases hx : extractContentXpath s.toList with
    | none =>
      simp only [contentStep, contentWrites, hx]
      rfl
    | some xp =>
      cases hn : extractElementIndex s.toList with
      | none =>
        simp only [contentStep, contentWrites, hx, hn]
        rfl
      | some n =>
        simp only [contentStep, contentWrites, hx, hn]
        rfl

/-- Helper: the free-text pass changes the map by the concatenated content
writes. -/
theorem processContent_map :
    ∀ (cs : List Content) (m : XPathMap),
      processContent m cs = applyWrites m (cs.map contentWrites).flatten := by
  intro cs
  induction cs with
  | nil =>
    intro m
    rfl
  | cons c t ih =>
    intro m
    simp only [processContent, List.foldl_cons, List.map_cons, List.flatten_cons,
      applyWrites_append]
    rw [← contentStep_map]
    exact ih (contentStep m c)

/-- Helper: one scenario changes the map exactly by its chronological write
list. -/
theorem processScenario_map (st : RunState) (h : History) :
    (processScenario st h).element_xpath_map =
      applyWrites st.element_xpath_map (historyWrites h) := by
  simp only [processScenario, historyWrites, applyWrites_append]
  rw [processContent_map, processActions, processActionsFrom_map]

/-- Helper: a whole run changes the map exactly by the run's chronological
write list. -/
theorem runState_map :
    ∀ (hs : List History) (st : RunState),
      (hs.foldl processScenario st).element_xpath_map =
        applyWrites st.element_xpath_map (runWrites hs) := by
  intro hs
  induction hs with
  | nil =>
    intro st
    rfl
  | cons h t ih =>
    intro st
    simp only [List.foldl_cons, runWrites, List.map_cons, List.flatten_cons,
      applyWrites_append]
    rw [ih, processScenario_map]
    rfl

/-- Helper: applied writes resolve each key to its last write when one exists,
and to the prior binding otherwise. -/
theorem applyWrites_lastWrite :
    ∀ (ws : List (EKey × String)) (m : XPathMap) (k : EKey),
      applyWrites m ws k =
        match lastWrite ws k with
        | some v => some v
        | none => m k := by
  intro ws
  induction ws with
  | nil =>
    intro m k
    rfl
  | cons w t ih =>
    intro w0 k
    have step : applyWrites w0 (w :: t) = applyWrites (mapSet w0 w.1 w.2) t := rfl
    rw [step, ih (mapSet w0 w.1 w.2) k]
    cases hlw : lastWrite t k with
    | some v => simp [lastWrite, hlw]
    | none =>
      simp only [lastWrite, hlw, mapSet]
      by_cases hk : w.1 = k
      · rw [if_pos hk.symm, if_pos hk]
      · rw [if_neg (fun hc => hk hc.symm), if_neg hk]

/-- Helper: a single dictionary assignment never removes a key. -/
theorem mapSet_mono (m : XPathMap) (k2 : EKey) (v : String) (k : EKey)
    (h : (m k).isSome = true) : ((mapSet m k2 v) k).isSome = true := by
  by_cases hk : k = k2 <;> simp [mapSet, hk, h]

/-- Helper: applying writes never removes a key. -/
theorem applyWrites_mono :
    ∀ (ws : List (EKey × String)) (m : XPathMap) (k : EKey),
      (m k).isSome = true → ((applyWrites m ws) k).isSome = true := by
  intro ws
  induction ws with
  | nil =>
    intro m k h
    exact h
  | cons w t ih =>
    intro m k h
    exact ih (mapSet m w.1 w.2) k (mapSet_mono m w.1 w.2 k h)

/-- C5: for every key receiving at least one successful write during a run,
the final map binds it to the chronologically last written value across the
discovery, interaction, and free-text channels; and a processing step never
removes a key from the map. -/
theorem final_map_last_write (hs : List History) (k : EKey) (v : String)
    (hlast : lastWrite (runWrites hs) k = some v) :
    (runState hs).element_xpath_map k = some v ∧
    ∀ (st : RunState) (h : History) (k2 : EKey),
      (st.element_xpath_map k2).isSome = true →
      ((processScenario st h).element_xpath_map k2).isSome = true := by
  constructor
  · rw [runState, runState_map hs initialRunState, applyWrites_lastWrite, hlast]
  · intro st h k2 hk2
    rw [processScenario_map]
    exact applyWrites_mono (historyWrites h) st.element_xpath_map k2 hk2

/-- A description string carrying the quoted xpath pattern with payload A. -/
def infoW : String :=
  String.mk ("xpath=".toList ++ [quoteChar] ++ "A".toList ++ [quoteChar])

/-- A discovery action on element index 1 carrying that description. -/
def discoveryActionW : ActionData :=
  { get_xpath_of_element := some (some 1), input_text := none,
    click_element := none, perform_element_action := none,
    interacted_element := some infoW }

/-- A history whose single action is the discovery action above. -/
def historyW1 : History :=
  { final_result := ResultVal.str "ok", model_actions := [discoveryActionW],
    action_names := ["d"], urls := [], extracted_content := [], errors := [] }

/-- A history whose extracted content rebinds element 1 through the free-text
channel. -/
def historyW2 : History :=
  { final_result := ResultVal.str "ok", model_actions := [], action_names := [],
    urls := [],
    extracted_content := [Content.str "The xpath of the element is //b near element 1"],
    errors := [] }

/-- C5 witness: in a concrete run where element 1 is written first by the
discovery channel and then by the free-text channel, the final map holds the
later value. -/
theorem final_map_last_write_witness :
    (runState [historyW1, historyW2]).element_xpath_map (some 1) =
      some "//b near element 1" :=
  (final_map_last_write [historyW1, historyW2] (some 1) "//b near element 1"
    (by decide)).1

/-- An entry carrying two interaction keys with different indices. -/
def interactionCexAction : ActionData :=
  { get_xpath_of_element := none, input_text := some (some 1),
    click_element := some (some 2), perform_element_action := none,
    interacted_element := none }

/-- A history whose second entry carries two interaction keys at once. -/
def historyC4 : History :=
  { final_result := ResultVal.str "ok",
    model_actions := [discoveryActionW, interactionCexAction],
    action_names := ["d", "t"], urls := [], extracted_content := [], errors := [] }

/-- C4 counterexample: in a run whose second raw entry carries two interaction
keys, the appended record holds element index 2 with the xpath looked up for
index 1, while the map holds nothing for index 2 at that moment (or ever in
this run): the snapshot disagrees with the map at the record's own index. -/
theorem xpath_snapshot_invariant_cex :
    (runState [historyC4]).all_actions.map ActionRecord.element_details =
      [{ index := some (some 1), xpath := some "A" },
       { index := some (some 2), xpath := some "A" }] ∧
    (runState [historyC4]).element_xpath_map (some 2) = none := by
  constructor
  · rfl
  · rfl

/-- Helper: an inactive interaction key leaves the accumulator unchanged. -/
theorem stepKey_skip (ie : Option String) (acc : XPathMap × ElementDetails)
    (v : Option (Option Int)) (h : v.bind id = none) : stepKey ie acc v = acc := by
  rcases v with _ | (_ | i)
  · rfl
  · rfl
  · simp at h

/-- Helper: a fold over inactive keys leaves the accumulator unchanged. -/
theorem foldl_stepKey_skip (ie : Option String) :
    ∀ (ks : List (Option (Option Int))) (acc : XPathMap × ElementDetails),
      (∀ v ∈ ks, v.bind id = none) → ks.foldl (stepKey ie) acc = acc := by
  intro ks
  induction ks with
  | nil =>
    intro acc h
    rfl
  | cons k t ih =>
    intro acc h
    rw [List.foldl_cons, stepKey_skip ie acc k (h k (List.mem_cons_self k t))]
    exact ih acc (fun v hv => h v (List.mem_cons_of_mem k hv))

/-- Helper: one active interaction key starting from empty details yields a
pair in which any attached xpath agrees with the resulting map at the attached
index. -/
theorem stepKey_active_snapshot (ie : Option String) (m : XPathMap) (i : Int)
    (xp : String)
    (hx : (stepKey ie (m, { index := none, xpath := none }) (some (some i))).2.xpath =
      some xp) :
    (stepKey ie (m, { index := none, xpath := none }) (some (some i))).2.index =
      some (some i) ∧
    (stepKey ie (m, { index := none, xpath := none }) (some (some i))).1 (some i) =
      some xp := by
  cases ie with
  | none =>
    cases hm : m (some i) with
    | none =>
      have heq : stepKey none (m, { index := none, xpath := none }) (some (some i)) =
          (m, { index := some (some i), xpath := none }) := by
        simp only [stepKey, hm]
      rw [heq] at hx
      exact absurd hx (by simp)
    | some mv =>
      have heq : stepKey none (m, { index := none, xpath := none }) (some (some i)) =
          (m, { index := some (some i), xpath := some mv }) := by
        simp only [stepKey, hm]
      rw [heq] at hx ⊢
      obtain rfl : mv = xp := Option.some.inj hx
      exact ⟨rfl, hm⟩
  | some info =>
    cases hex : extractXpath info.toList with
    | none =>
      cases hm : m (some i) with
      | none =>
        have heq : stepKey (some info) (m, { index := none, xpath := none })
            (some (some i)) = (m, { index := some (some i), xpath := none }) := by
          simp only [stepKey, hex, hm]
        rw [heq] at hx
        exact absurd hx (by simp)
      | some mv =>
        have heq : stepKey (some info) (m, { index := none, xpath := none })
            (some (some i)) = (m, { index := some (some i), xpath := some mv }) := by
          simp only [stepKey, hex, hm]
        rw [heq] at hx ⊢
        obtain rfl : mv = xp := Option.some.inj hx
        exact ⟨rfl, hm⟩
    | some w =>
      have heq : stepKey (some info) (m, { index := none, xpath := none })
          (some (some i)) =
          (mapSet m (some i) (String.mk w),
           { index := some (some i), xpath := some (String.mk w) }) := by
        cases hm : m (some i) with
        | none => simp only [stepKey, hex, hm]
        | some mv => simp only [stepKey, hex, hm]
      rw [heq] at hx ⊢
      obtain rfl : String.mk w = xp := Option.some.inj hx
      refine ⟨rfl, ?_⟩
      simp [mapSet]

/-- Helper: a fold over the three interaction keys with at most one active key
yields a pair in which any attached xpath agrees with the map at the attached
index. -/
theorem foldl_stepKey_single (ie : Option String) :
    ∀ (ks : List (Option (Option Int))) (m : XPathMap) (xp : String),
      ks.countP (fun v => (v.bind id).isSome) ≤ 1 →
      (ks.foldl (stepKey ie) (m, { index := none, xpath := none })).2.xpath = some xp →
      ∃ k, (ks.foldl (stepKey ie) (m, { index := none, xpath := none })).2.index =
          some k ∧
        (ks.foldl (stepKey ie) (m, { index := none, xpath := none })).1 k = some xp := by
  intro ks
  induction ks with
  | nil =>
    intro m xp hc hx
    simp at hx
  | cons k0 t ih =>
    intro m xp hc hx
    rcases k0 with _ | (_ | i)
    · rw [List.foldl_cons, stepKey_skip ie _ none rfl] at hx ⊢
      refine ih m xp ?_ hx
      simp [List.countP_cons] at hc
      exact hc
    · rw [List.foldl_cons, stepKey_skip ie _ (some none) rfl] at hx ⊢
      refine ih m xp ?_ hx
      simp [List.countP_cons] at hc
      exact hc
    · have hcc : (some (some i) :: t).countP (fun v => (v.bind id).isSome) =
          t.countP (fun v => (v.bind id).isSome) + 1 := by
        simp [List.countP_cons]
      have hc2 : t.countP (fun v => (v.bind id).isSome) = 0 := by
        rw [hcc] at hc
        omega
      have hall : ∀ v ∈ t, v.bind id = none := by
        intro v hv
        have hnp := List.countP_eq_zero.mp hc2 v hv
        cases hvb : v.bind id with
        | none => rfl
        | some j =>
          rw [hvb] at hnp
          simp at hnp
      rw [List.foldl_cons, foldl_stepKey_skip ie t _ hall] at hx ⊢
      obtain ⟨h1, h2⟩ := stepKey_active_snapshot ie m i xp hx
      exact ⟨some i, h1, h2⟩

/-- C4 (amended): at the moment a record is appended, if its raw entry carries
at most one interaction key with an index parameter, and the record's element
details hold an xpath, then the map at that moment holds exactly that value
under the record's own element index. Entries carrying several interaction
keys at once can violate the unamended claim. -/
theorem xpath_snapshot_invariant (names : List String) (m : XPathMap) (i : Nat)
    (a : ActionData) (xp : String) (hcount : activeKeyCount a ≤ 1)
    (hx : (processAction names m i a).2.element_details.xpath = some xp) :
    ∃ k : EKey, (processAction names m i a).2.element_details.index = some k ∧
      (processAction names m i a).1 k = some xp := by
  rcases a with ⟨g, it, ce, pe, ie⟩
  cases g with
  | some eidx =>
    cases ie with
    | none => simp [processAction] at hx
    | some info =>
      cases hex : extractXpath info.toList with
      | none =>
        simp only [processAction, hex] at hx
        simp at hx
      | some w =>
        simp only [processAction, hex] at hx ⊢
        simp only [Option.some.injEq] at hx
        subst hx
        refine ⟨eidx, rfl, ?_⟩
        simp [mapSet]
  | none =>
    by_cases hcond : (it.isSome || ce.isSome || pe.isSome) = true
    · simp only [processAction, hcond, if_true] at hx ⊢
      exact foldl_stepKey_single ie [it, ce, pe] m xp hcount hx
    · simp only [processAction, hcond] at hx
      simp [Bool.not_eq_true] at hcond
      simp [hcond] at hx

/-- C4 witness: a concrete discovery action with a single channel satisfies
the amended snapshot invariant. -/
theorem xpath_snapshot_invariant_witness :
    ∃ k : EKey,
      (processAction ["d"] emptyMap 0 discoveryActionW).2.element_details.index =
        some k ∧
      (processAction ["d"] emptyMap 0 discoveryActionW).1 k = some "A" :=
  xpath_snapshot_invariant ["d"] emptyMap 0 discoveryActionW "A" (by decide)
    (by decide)

/-- Helper: taking while the predicate holds stops exactly at the first
failing character. -/
theorem takeWhile_append_stop (p : Char → Bool) (q : Char) (hq : p q = false) :
    ∀ (v post : List Char), (∀ c ∈ v, p c = true) →
      (v ++ q :: post).takeWhile p = v := by
  intro v
  induction v with
  | nil =>
    intro post hv
    simp [List.takeWhile_cons, hq]
  | cons a t ih =>
    intro post hv
    have ha : p a = true := hv a (List.mem_cons_self a t)
    simp only [List.cons_append, List.takeWhile_cons, ha, if_true]
    rw [ih post (fun c hc => hv c (List.mem_cons_of_mem a hc))]

/-- Helper: a take-while shorter than its list is followed by a character that
fails the predicate. -/
theorem takeWhile_lt_decomp (p : Char → Bool) :
    ∀ (t : List Char), (t.takeWhile p).length < t.length →
      ∃ b post, t = t.takeWhile p ++ b :: post ∧ p b = false := by
  intro t
  induction t with
  | nil =>
    intro h
    simp at h
  | cons a l ih =>
    intro h
    cases hpa : p a with
    | false =>
      refine ⟨a, l, ?_, hpa⟩
      simp [List.takeWhile_cons, hpa]
    | true =>
      have h2 : (l.takeWhile p).length < l.length := by
        rw [List.takeWhile_cons, if_pos hpa] at h
        simpa using h
      obtain ⟨b, post, hdec, hb⟩ := ih h2
      refine ⟨b, post, ?_, hb⟩
      rw [List.takeWhile_cons, if_pos hpa, List.cons_append, ← hdec]

/-- Helper: a successful extraction returns a nonempty quote-free group that
occurs in the text between the pattern prefix and a closing quote. -/
theorem extractXpath_sound :
    ∀ (s v : List Char), extractXpath s = some v →
      v ≠ [] ∧ (∀ c ∈ v, c ≠ quoteChar) ∧
        ∃ pre post, s = pre ++ xpathPhrase ++ v ++ quoteChar :: post := by
  intro s
  induction s with
  | nil =>
    intro v hv
    cases hv
  | cons c cs ih =>
    intro v hv
    simp only [extractXpath] at hv
    split at hv
    next hp =>
      split at hv
      next hcond =>
        obtain ⟨hne, hlt⟩ := hcond
        have hv2 := Option.some.inj hv
        obtain ⟨t, ht⟩ := List.isPrefixOf_iff_prefix.mp hp
        have hrest : (c :: cs).drop xpathPhrase.length = t := by
          rw [← ht, List.drop_left]
        rw [hrest] at hv2 hne hlt
        obtain ⟨b, post2, hdecT, hb⟩ :=
          takeWhile_lt_decomp (fun ch => ch != quoteChar) t hlt
        have hbq : b = quoteChar := by
          simpa [bne_eq_false_iff_eq] using hb
        subst hbq
        refine ⟨?_, ?_, [], post2, ?_⟩
        · rw [← hv2]
          exact hne
        · intro c2 hc2
          have hmem : c2 ∈ t.takeWhile (fun ch => ch != quoteChar) := by
            rw [hv2]
            exact hc2
          have hpc := List.mem_takeWhile_imp hmem
          exact bne_iff_ne.mp hpc
        · rw [← ht, hdecT, hv2]
          simp [List.append_assoc]
      next hcond =>
        obtain ⟨hne, hq, pre, post, hdec⟩ := ih v hv
        refine ⟨hne, hq, c :: pre, post, ?_⟩
        simp [hdec, List.cons_append]
    next hp =>
      obtain ⟨hne, hq, pre, post, hdec⟩ := ih v hv
      refine ⟨hne, hq, c :: pre, post, ?_⟩
      simp [hdec, List.cons_append]

/-- Helper: if the pattern occurs with a nonempty quote-free payload and a
closing quote, extraction succeeds. -/
theorem extractXpath_complete :
    ∀ (s pre v post : List Char),
      s = pre ++ xpathPhrase ++ v ++ quoteChar :: post →
      v ≠ [] → (∀ c ∈ v, c ≠ quoteChar) →
      (extractXpath s).isSome = true := by
  intro s
  induction s with
  | nil =>
    intro pre v post hs hv hq
    exfalso
    have hlen : ([] : List Char).length =
        (pre ++ xpathPhrase ++ v ++ quoteChar :: post).length := by
      rw [hs]
    simp [xpathPhrase] at hlen
    omega
  | cons c cs ih =>
    intro pre v post hs hv hq
    simp only [extractXpath]
    split
    next hp =>
      split
      next hcond => simp
      next hcond =>
        cases pre with
        | nil =>
          exfalso
          apply hcond
          have hs2 : c :: cs = xpathPhrase ++ (v ++ quoteChar :: post) := by
            rw [hs]
            simp [List.append_assoc]
          have hrest : (c :: cs).drop xpathPhrase.length = v ++ quoteChar :: post := by
            rw [hs2, List.drop_left]
          rw [hrest, takeWhile_append_stop (fun ch => ch != quoteChar) quoteChar
            (by simp) v post (fun c2 hc2 => bne_iff_ne.mpr (hq c2 hc2))]
          refine ⟨hv, ?_⟩
          rw [List.length_append, List.length_cons]
          omega
        | cons p ps =>
          have hs2 : cs = ps ++ xpathPhrase ++ v ++ quoteChar :: post := by
            simp only [List.cons_append] at hs
            injection hs with hc1 hc2
          exact ih ps v post hs2 hv hq
    next hp =>
      cases pre with
      | nil =>
        exfalso
        apply hp
        have hs2 : c :: cs = xpathPhrase ++ (v ++ quoteChar :: post) := by
          rw [hs]
          simp [List.append_assoc]
        rw [hs2]
        exact List.isPrefixOf_iff_prefix.mpr (List.prefix_append _ _)
      | cons p ps =>
        have hs2 : cs = ps ++ xpathPhrase ++ v ++ quoteChar :: post := by
          simp only [List.cons_append] at hs
          injection hs with hc1 hc2
        exact ih ps v post hs2 hv hq

/-- Helper: when the given occurrence is the leftmost occurrence of the
pattern prefix, extraction returns exactly the payload of that occurrence. -/
theorem extractXpath_first :
    ∀ (s pre v post : List Char),
      s = pre ++ xpathPhrase ++ v ++ quoteChar :: post →
      v ≠ [] → (∀ c ∈ v, c ≠ quoteChar) →
      (∀ j, j < pre.length → xpathPhrase.isPrefixOf (s.drop j) = false) →
      extractXpath s = some v := by
  intro s
  induction s with
  | nil =>
    intro pre v post hs hv hq hfirst
    exfalso
    have hlen : ([] : List Char).length =
        (pre ++ xpathPhrase ++ v ++ quoteChar :: post).length := by
      rw [hs]
    simp [xpathPhrase] at hlen
    omega
  | cons c cs ih =>
    intro pre v post hs hv hq hfirst
    cases pre with
    | nil =>
      have hs2 : c :: cs = xpathPhrase ++ (v ++ quoteChar :: post) := by
        rw [hs]
        simp [List.append_assoc]
      have hp : xpathPhrase.isPrefixOf (c :: cs) = true := by
        rw [hs2]
        exact List.isPrefixOf_iff_prefix.mpr (List.prefix_append _ _)
      have hrest : (c :: cs).drop xpathPhrase.length = v ++ quoteChar :: post := by
        rw [hs2, List.drop_left]
      simp only [extractXpath, hp, if_true]
      rw [hrest, takeWhile_append_stop (fun ch => ch != quoteChar) quoteChar
        (by simp) v post (fun c2 hc2 => bne_iff_ne.mpr (hq c2 hc2))]
      have hcnd : v ≠ [] ∧ v.length < (v ++ quoteChar :: post).length := by
        refine ⟨hv, ?_⟩
        rw [List.length_append, List.length_cons]
        omega
      rw [if_pos hcnd]
    | cons p ps =>
      have hp : xpathPhrase.isPrefixOf (c :: cs) = false := by
        have h0 := hfirst 0 (by simp)
        simpa using h0
      have hs2 : cs = ps ++ xpathPhrase ++ v ++ quoteChar :: post := by
        simp only [List.cons_append] at hs
        injection hs with hc1 hc2
      have hfirst2 : ∀ j, j < ps.length →
          xpathPhrase.isPrefixOf (cs.drop j) = false := by
        intro j hj
        have hj2 := hfirst (j + 1) (by simpa using Nat.succ_lt_succ hj)
        simpa using hj2
      simp only [extractXpath, hp, Bool.false_eq_true, if_false]
      exact ih ps v post hs2 hv hq hfirst2

/-- C8: a discovery action whose interacted-element description contains the
quoted xpath pattern with a nonempty quote-free payload gets an xpath attached
to its record and written into the map under the discovery index: the attached
value is always such a contained payload (the leftmost match), and it is
exactly the given payload whenever the given occurrence is the leftmost
occurrence of the pattern prefix. -/
theorem discovery_xpath_extraction (names : List String) (m : XPathMap)
    (i : Nat) (a : ActionData) (eidx : EKey) (info : String)
    (pre v post : List Char)
    (hg : a.get_xpath_of_element = some eidx)
    (hie : a.interacted_element = some info)
    (hdec : info.toList = pre ++ xpathPhrase ++ v ++ quoteChar :: post)
    (hv : v ≠ []) (hq : ∀ c ∈ v, c ≠ quoteChar) :
    (∃ w pre2 post2,
      info.toList = pre2 ++ xpathPhrase ++ w ++ quoteChar :: post2 ∧
      w ≠ [] ∧ (∀ c ∈ w, c ≠ quoteChar) ∧
      (processAction names m i a).2.element_details.index = some eidx ∧
      (processAction names m i a).2.element_details.xpath = some (String.mk w) ∧
      (processAction names m i a).1 eidx = some (String.mk w)) ∧
    ((∀ j, j < pre.length → xpathPhrase.isPrefixOf (info.toList.drop j) = false) →
      (processAction names m i a).2.element_details.xpath = some (String.mk v) ∧
      (processAction names m i a).1 eidx = some (String.mk v)) := by
  rcases a with ⟨g, it, ce, pe, ie⟩
  have hg2 : g = some eidx := hg
  have hie2 : ie = some info := hie
  subst hg2
  subst hie2
  have hsome : (extractXpath info.toList).isSome = true :=
    extractXpath_complete info.toList pre v post hdec hv hq
  obtain ⟨w, hw⟩ := Option.isSome_iff_exists.mp hsome
  obtain ⟨hwne, hwq, pre2, post2, hwdec⟩ := extractXpath_sound info.toList w hw
  have heq : processAction names m i
      { get_xpath_of_element := some eidx, input_text := it, click_element := ce,
        perform_element_action := pe, interacted_element := some info } =
      (mapSet m eidx (String.mk w),
       { name := names.getD i "Unknown Action", index := i,
         element_details := { index := some eidx, xpath := some (String.mk w) } }) := by
    simp only [processAction, hw]
  constructor
  · refine ⟨w, pre2, post2, hwdec, hwne, hwq, ?_, ?_, ?_⟩
    · rw [heq]
    · rw [heq]
    · rw [heq]
      simp [mapSet]
  · intro hfirst
    have hwv : extractXpath info.toList = some v :=
      extractXpath_first info.toList pre v post hdec hv hq hfirst
    rw [hw] at hwv
    obtain rfl := Option.some.inj hwv
    refine ⟨?_, ?_⟩
    · rw [heq]
    · rw [heq]
      simp [mapSet]

/-- C8 witness: the concrete description with payload A attaches exactly A to
the record and to the map under the discovery index. -/
theorem discovery_xpath_extraction_witness :
    (processAction ["d"] emptyMap 0 discoveryActionW).2.element_details.xpath =
      some (String.mk ['A']) ∧
    (processAction ["d"] emptyMap 0 discoveryActionW).1 (some 1) =
      some (String.mk ['A']) :=
  (discovery_xpath_extraction ["d"] emptyMap 0 discoveryActionW (some 1) infoW
    [] ['A'] [] rfl rfl (by decide) (by decide) (by decide)).2
    (fun j hj => absurd hj (Nat.not_lt_zero j))
